import Mathlib

/-!
Verification development for the helix theme resolution engine
(`helix-view/src/theme.rs`).

Strings from the Rust side are modelled as lists of characters (`Str`),
which lets the byte-oriented operations of the source (UTF-8 byte slicing
in `hex_string_to_rgb`) be expressed exactly.  Maps (`toml::map::Map`,
`HashMap`) are modelled as association lists with lookup-first semantics;
insertion replaces an existing binding in place, mirroring map insertion.

Code whose source is not part of the shown tree (the `Style`/`Color`
data model from `graphics.rs`, `merge_toml_values` from `helix-loader`,
`u8::from_str_radix` from the Rust standard library) is modelled from the
specification, as flagged in the corresponding doc comments.  Fallible
Rust code is embedded as `Except`; a potential panic is embedded as the
`none` case of an outer `Option`.
-/

namespace Helix

/-- Model of a Rust string as a list of characters. -/
abbrev Str := List Char

/-- Keys of an association list. -/
def keysOf {α : Type} (l : List (Str × α)) : List Str :=
  l.map Prod.fst

/-- First-match lookup in an association list (model of map lookup). -/
def lookupAssoc {α : Type} : List (Str × α) → Str → Option α
  | [], _ => none
  | (k', v) :: rest, k => if k' = k then some v else lookupAssoc rest k

/-- Map insertion on an association list: replaces the binding in place if
the key is present, otherwise appends it. -/
def insertAssoc {α : Type} : List (Str × α) → Str → α → List (Str × α)
  | [], k, v => [(k, v)]
  | (k', v') :: rest, k, v =>
    if k' = k then (k, v) :: rest else (k', v') :: insertAssoc rest k v

/-- Replace the value at the first occurrence of a key, leaving the list
unchanged when the key is absent. -/
def replaceAssoc {α : Type} : List (Str × α) → Str → α → List (Str × α)
  | [], _, _ => []
  | (k', v') :: rest, k, v =>
    if k' = k then (k, v) :: rest else (k', v') :: replaceAssoc rest k v

/-- Map removal: returns the removed value (if any) and the remaining list
(model of `Map::remove`). -/
def removeKey {α : Type} : List (Str × α) → Str → Option α × List (Str × α)
  | [], _ => (none, [])
  | (k', v) :: rest, k =>
    if k' = k then (some v, rest)
    else
      let r := removeKey rest k
      (r.1, (k', v) :: r.2)

/-- Modelled from the spec: the `Color` type of `graphics.rs` is not in the
shown sources.  "A closed variant: one of 16 named ANSI colors, or an RGB
triple (u8,u8,u8), or unset/default." -/
inductive Color : Type where
  | reset
  | black
  | red
  | green
  | yellow
  | blue
  | magenta
  | cyan
  | gray
  | lightRed
  | lightGreen
  | lightYellow
  | lightBlue
  | lightMagenta
  | lightCyan
  | lightGray
  | white
  | rgb (r g b : Nat)
  deriving DecidableEq, Repr

/-- Modelled from the spec: the modifier flags of `graphics.rs` are not in
the shown sources.  "A set of independent text-attribute flags (bold,
italic, dim, reversed, etc.)." -/
inductive Modifier : Type where
  | bold
  | dim
  | italic
  | slowBlink
  | rapidBlink
  | reversed
  | hidden
  | crossedOut
  deriving DecidableEq, Repr

/-- Modelled from the spec: the underline style of `graphics.rs` is not in
the shown sources.  "Optional underline style (none/line/curl/etc.)". -/
inductive UnderlineStyle : Type where
  | line
  | curl
  | dotted
  | dashed
  | doubleLine
  deriving DecidableEq, Repr

/-- Modelled from the spec: the `Style` record of `graphics.rs` is not in
the shown sources.  "{foreground: Option Color, background: Option Color,
underline: UnderlineSpec, modifiers: ModifierSet}". -/
structure Style : Type where
  fg : Option Color := none
  bg : Option Color := none
  underlineColor : Option Color := none
  underlineStyle : Option UnderlineStyle := none
  modifiers : List Modifier := []
  deriving DecidableEq, Repr

/-- Default (empty) style. -/
def Style.default : Style := {}

/-- Patch combinator for the foreground, model of `Style::fg`. -/
def Style.withFg (s : Style) (c : Color) : Style := { s with fg := some c }

/-- Patch combinator for the background, model of `Style::bg`. -/
def Style.withBg (s : Style) (c : Color) : Style := { s with bg := some c }

/-- Patch combinator for the underline color, model of
`Style::underline_color`. -/
def Style.withUnderlineColor (s : Style) (c : Color) : Style :=
  { s with underlineColor := some c }

/-- Patch combinator for the underline style, model of
`Style::underline_style`. -/
def Style.withUnderlineStyle (s : Style) (u : UnderlineStyle) : Style :=
  { s with underlineStyle := some u }

/-- Set union of modifier flags, model of `Style::add_modifier`. -/
def Style.addModifier (s : Style) (m : Modifier) : Style :=
  if m ∈ s.modifiers then s else { s with modifiers := s.modifiers ++ [m] }

/-- Modelled from the spec: a raw configuration document value, "an untyped
nested table (string keys, arbitrary values: string/table/array)", as
produced by the TOML parser. -/
inductive Value : Type where
  | str (s : Str)
  | integer (n : Int)
  | boolean (b : Bool)
  | array (items : List Value)
  | table (entries : List (Str × Value))

/-- Model of `Value::get`: table lookup, `none` on a non-table. -/
def valueGet (v : Value) (k : Str) : Option Value :=
  match v with
  | Value.table entries => lookupAssoc entries k
  | _ => none

/-- UTF-8 byte length of a modelled string, matching Rust `str::len`. -/
def utf8Len (s : Str) : Nat :=
  (s.map Char.utf8Size).sum

/-- Drop the first `n` UTF-8 bytes of a string; `none` when `n` is not a
character boundary (which makes Rust byte slicing panic) or is out of
range. -/
def dropBytes : Str → Nat → Option Str
  | l, 0 => some l
  | [], _ + 1 => none
  | c :: rest, n + 1 =>
    if c.utf8Size ≤ n + 1 then dropBytes rest (n + 1 - c.utf8Size) else none

/-- Take the first `n` UTF-8 bytes of a string; `none` when `n` is not a
character boundary or is out of range. -/
def takeBytes : Str → Nat → Option Str
  | _, 0 => some []
  | [], _ + 1 => none
  | c :: rest, n + 1 =>
    if c.utf8Size ≤ n + 1 then (takeBytes rest (n + 1 - c.utf8Size)).map (c :: ·)
    else none

/-- Model of the Rust byte-range slice `&s[a..b]`: `none` models the panic
on a non-boundary index. -/
def byteSlice (s : Str) (a b : Nat) : Option Str :=
  (dropBytes s a).bind (fun rest => takeBytes rest (b - a))

/-- Value of a single hexadecimal digit, matching `char::to_digit(16)`. -/
def hexDigitVal (c : Char) : Option Nat :=
  if '0' ≤ c ∧ c ≤ '9' then some (c.toNat - '0'.toNat)
  else if 'a' ≤ c ∧ c ≤ 'f' then some (c.toNat - 'a'.toNat + 10)
  else if 'A' ≤ c ∧ c ≤ 'F' then some (c.toNat - 'A'.toNat + 10)
  else none

/-- Accumulate hexadecimal digits with the `u8` overflow check of
`from_str_radix`. -/
def hexDigitsAcc : Nat → Str → Option Nat
  | acc, [] => some acc
  | acc, c :: rest =>
    match hexDigitVal c with
    | none => none
    | some d => if acc * 16 + d ≤ 255 then hexDigitsAcc (acc * 16 + d) rest else none

/-- Modelled from the Rust standard library (not in the shown sources):
`u8::from_str_radix(s, 16)`.  Accepts an optional leading `+` followed by
at least one hexadecimal digit, rejecting overflow past 255. -/
def fromStrRadix16 (l : Str) : Option Nat :=
  match l with
  | [] => none
  | c :: rest =>
    if c = '+' then (if rest.isEmpty then none else hexDigitsAcc 0 rest)
    else hexDigitsAcc 0 (c :: rest)

/-- The theme palette: a mapping from color names to colors. -/
structure ThemePalette : Type where
  palette : List (Str × Color)

/-- The 16 built-in palette entries, model of `ThemePalette::default`. -/
def ThemePalette.default : ThemePalette :=
  ⟨[("black".data, Color.black),
    ("red".data, Color.red),
    ("green".data, Color.green),
    ("yellow".data, Color.yellow),
    ("blue".data, Color.blue),
    ("magenta".data, Color.magenta),
    ("cyan".data, Color.cyan),
    ("gray".data, Color.gray),
    ("light-red".data, Color.lightRed),
    ("light-green".data, Color.lightGreen),
    ("light-yellow".data, Color.lightYellow),
    ("light-blue".data, Color.lightBlue),
    ("light-magenta".data, Color.lightMagenta),
    ("light-cyan".data, Color.lightCyan),
    ("light-gray".data, Color.lightGray),
    ("white".data, Color.white)]⟩

/-- Model of `ThemePalette::new`: the document-supplied entries are
inserted into the built-in defaults (`default.extend(palette)`), each
insertion overwriting any same-named binding. -/
def ThemePalette.new (m : List (Str × Color)) : ThemePalette :=
  ⟨m.foldl (fun acc kv => insertAssoc acc kv.1 kv.2) ThemePalette.default.palette⟩

/-- Error message of a malformed hex code, carrying the offending token
(model of `format!("Theme: malformed hexcode: {}", s)`). -/
def malformedHexMsg (s : Str) : Str :=
  "Theme: malformed hexcode: ".data ++ s

/-- Model of `ThemePalette::hex_string_to_rgb`.  The outer `Option` is the
panic channel: the source slices `&s[1..3]`, `&s[3..5]`, `&s[5..7]` by
byte range, which panics when an index is not a character boundary; all
three slices are evaluated before the digit parses are examined. -/
def hexStringToRgb (s : Str) : Option (Except Str Color) :=
  if s.head? = some '#' ∧ 7 ≤ utf8Len s then
    match byteSlice s 1 3 with
    | none => none
    | some s1 =>
      match byteSlice s 3 5 with
      | none => none
      | some s2 =>
        match byteSlice s 5 7 with
        | none => none
        | some s3 =>
          match fromStrRadix16 s1, fromStrRadix16 s2, fromStrRadix16 s3 with
          | some r, some g, some b => some (Except.ok (Color.rgb r g b))
          | _, _, _ => some (Except.error (malformedHexMsg s))
  else some (Except.error (malformedHexMsg s))

/-- Model of `ThemePalette::parse_value_as_str`; the rendered value in the
error message is elided. -/
def parseValueAsStr (v : Value) : Except Str Str :=
  match v with
  | Value.str s => Except.ok s
  | _ => Except.error "Theme: unrecognized value".data

/-- Model of `ThemePalette::parse_color`: palette lookup first, then the
hex parse; the outer `Option` is the panic channel inherited from
`hexStringToRgb`. -/
def parseColor (p : ThemePalette) (v : Value) : Option (Except Str Color) :=
  match parseValueAsStr v with
  | Except.error e => some (Except.error e)
  | Except.ok s =>
    match lookupAssoc p.palette s with
    | some c => some (Except.ok c)
    | none => hexStringToRgb s

/-- Modelled from the spec: the closed modifier-name set of the
`Modifier` `FromStr` instance (in `graphics.rs`, not in the shown
sources). -/
def modifierOfStr (s : Str) : Option Modifier :=
  if s = "bold".data then some Modifier.bold
  else if s = "dim".data then some Modifier.dim
  else if s = "italic".data then some Modifier.italic
  else if s = "slow_blink".data then some Modifier.slowBlink
  else if s = "rapid_blink".data then some Modifier.rapidBlink
  else if s = "reversed".data then some Modifier.reversed
  else if s = "hidden".data then some Modifier.hidden
  else if s = "crossed_out".data then some Modifier.crossedOut
  else none

/-- Modelled from the spec: the closed underline-style token set of the
`UnderlineStyle` `FromStr` instance (in `graphics.rs`, not in the shown
sources). -/
def underlineStyleOfStr (s : Str) : Option UnderlineStyle :=
  if s = "line".data then some UnderlineStyle.line
  else if s = "curl".data then some UnderlineStyle.curl
  else if s = "dotted".data then some UnderlineStyle.dotted
  else if s = "dashed".data then some UnderlineStyle.dashed
  else if s = "double_line".data then some UnderlineStyle.doubleLine
  else none

/-- Model of `ThemePalette::parse_modifier`; the rendered value in the
error message is elided. -/
def parseModifier (v : Value) : Except Str Modifier :=
  match v with
  | Value.str s =>
    match modifierOfStr s with
    | some m => Except.ok m
    | none => Except.error "Theme: invalid modifier".data
  | _ => Except.error "Theme: invalid modifier".data

/-- Model of `ThemePalette::parse_underline_style`; the rendered value in
the error message is elided. -/
def parseUnderlineStyle (v : Value) : Except Str UnderlineStyle :=
  match v with
  | Value.str s =>
    match underlineStyleOfStr s with
    | some u => Except.ok u
    | none => Except.error "Theme: invalid underline style".data
  | _ => Except.error "Theme: invalid underline style".data

/-- Model of the `modifiers` loop of `ThemePalette::parse_style`: each
entry is applied in order; the literal `"underlined"` sets the underline
style, any other token is parsed as a modifier; the first failing token
stops the loop, keeping the style assembled so far together with the
error. -/
def applyModifiers (cur : Style) : List Value → Style × Option Str
  | [] => (cur, none)
  | m :: ms =>
    match m with
    | Value.str s =>
      if s = "underlined".data then
        applyModifiers (cur.withUnderlineStyle UnderlineStyle.line) ms
      else
        match parseModifier (Value.str s) with
        | Except.ok md => applyModifiers (cur.addModifier md) ms
        | Except.error e => (cur, some e)
    | v =>
      match parseModifier v with
      | Except.ok md => applyModifiers (cur.addModifier md) ms
      | Except.error e => (cur, some e)

/-- Model of the `underline` branch of `ThemePalette::parse_style`: the
nested table must exist; its `color` and `style` keys are removed and
applied in that order, then any leftover key is an error.  The result is
`Except.ok` with the updated style to continue with, or `Except.error`
with the early-returned (style, message) pair; the outer `Option` is the
panic channel of the color parse. -/
def applyUnderline (p : ThemePalette) (style : Style) (v : Value) :
    Option (Except (Style × Str) Style) :=
  match v with
  | Value.table t =>
    let rc := removeKey t "color".data
    let afterColor : Option (Except (Style × Str) Style) :=
      match rc.1 with
      | none => some (Except.ok style)
      | some cv =>
        match parseColor p cv with
        | none => none
        | some (Except.error e) => some (Except.error (style, e))
        | some (Except.ok c) => some (Except.ok (style.withUnderlineColor c))
    match afterColor with
    | none => none
    | some (Except.error r) => some (Except.error r)
    | some (Except.ok st1) =>
      let rs := removeKey rc.2 "style".data
      let afterStyle : Except (Style × Str) Style :=
        match rs.1 with
        | none => Except.ok st1
        | some sv =>
          match parseUnderlineStyle sv with
          | Except.error e => Except.error (st1, e)
          | Except.ok us => Except.ok (st1.withUnderlineStyle us)
      match afterStyle with
      | Except.error r => some (Except.error r)
      | Except.ok st2 =>
        match rs.2.head? with
        | some kv =>
          some (Except.error (st2, "Theme: invalid underline attribute: ".data ++ kv.1))
        | none => some (Except.ok st2)
  | _ => some (Except.error (style, "Theme: underline must be table".data))

/-- Model of the entry loop of `ThemePalette::parse_style` over a style
table: entries are processed in order; an `Err` from any entry stops the
loop, returning the style assembled so far with the error message; the
outer `Option` is the panic channel of the color parses. -/
def parseStyleEntries (p : ThemePalette) (style : Style) :
    List (Str × Value) → Option (Style × Option Str)
  | [] => some (style, none)
  | (name, value) :: rest =>
    if name = "fg".data then
      match parseColor p value with
      | none => none
      | some (Except.ok c) => parseStyleEntries p (style.withFg c) rest
      | some (Except.error e) => some (style, some e)
    else if name = "bg".data then
      match parseColor p value with
      | none => none
      | some (Except.ok c) => parseStyleEntries p (style.withBg c) rest
      | some (Except.error e) => some (style, some e)
    else if name = "underline".data then
      match applyUnderline p style value with
      | none => none
      | some (Except.error r) => some (r.1, some r.2)
      | some (Except.ok st) => parseStyleEntries p st rest
    else if name = "modifiers".data then
      match value with
      | Value.array mods =>
        match applyModifiers style mods with
        | (st, some e) => some (st, some e)
        | (st, none) => parseStyleEntries p st rest
      | _ => some (style, some "Theme: modifiers should be an array".data)
    else
      some (style, some ("Theme: invalid style attribute: ".data ++ name))

/-- Model of `ThemePalette::parse_style`: a non-table value is a
foreground-color token; a table is processed entry by entry.  Returns the
final style (partially applied on error) together with the optional error
message; `none` models a panic. -/
def parseStyle (p : ThemePalette) (style : Style) (value : Value) :
    Option (Style × Option Str) :=
  match value with
  | Value.table entries => parseStyleEntries p style entries
  | v =>
    match parseColor p v with
    | none => none
    | some (Except.ok c) => some (style.withFg c, none)
    | some (Except.error e) => some (style, some e)

/-- Model of the entry loop of `ThemePalette::try_from`: every palette
entry must be a string holding a hex color; the parsed pairs are collected
and layered over the defaults via `ThemePalette::new`. -/
def tryFromEntries (acc : List (Str × Color)) :
    List (Str × Value) → Option (Except Str ThemePalette)
  | [] => some (Except.ok (ThemePalette.new acc))
  | (name, value) :: rest =>
    match parseValueAsStr value with
    | Except.error e => some (Except.error e)
    | Except.ok s =>
      match hexStringToRgb s with
      | none => none
      | some (Except.error e) => some (Except.error e)
      | some (Except.ok c) => tryFromEntries (insertAssoc acc name c) rest

/-- Model of `impl TryFrom<Value> for ThemePalette`: a non-table value
yields the default palette; a table is parsed entry by entry. -/
def ThemePalette.tryFrom (v : Value) : Option (Except Str ThemePalette) :=
  match v with
  | Value.table entries => tryFromEntries [] entries
  | _ => some (Except.ok ThemePalette.default)

/-- The resolved runtime theme: UI styles in a map, tree-sitter highlight
styles in parallel ordered lists. -/
structure Theme : Type where
  name : Str
  styles : List (Str × Style)
  scopes : List Str
  highlights : List Style

/-- Model of the derived `Theme::default`. -/
def Theme.default : Theme :=
  ⟨[], [], [], []⟩

/-- The palette extraction stage of `build_theme_values`: the `palette`
key is removed and parsed; a parse `Err` is logged and recovered to the
default palette; `none` models a panic inside the palette parse. -/
def themePaletteOf (values : List (Str × Value)) : Option ThemePalette :=
  match (removeKey values "palette".data).1 with
  | some v =>
    match ThemePalette.tryFrom v with
    | none => none
    | some (Except.ok p) => some p
    | some (Except.error _) => some ThemePalette.default
  | none => some ThemePalette.default

/-- The entry loop of `build_theme_values`: each remaining entry is parsed
from a default style (an `Err` is logged, keeping the partial style) and
recorded in the styles map and in both parallel lists; `none` models a
panic inside a color parse. -/
def buildLoop (p : ThemePalette) (styles : List (Str × Style)) (scopes : List Str)
    (highlights : List Style) :
    List (Str × Value) → Option (List (Str × Style) × List Str × List Style)
  | [] => some (styles, scopes, highlights)
  | (name, sv) :: rest =>
    match parseStyle p Style.default sv with
    | none => none
    | some (st, _) =>
      buildLoop p (insertAssoc styles name st) (scopes ++ [name])
        (highlights ++ [st]) rest

/-- Model of `build_theme_values`: extract the palette, drop the
`inherits` key, then run the entry loop. -/
def buildThemeValues (values : List (Str × Value)) :
    Option (List (Str × Style) × List Str × List Style) :=
  match themePaletteOf values with
  | none => none
  | some p =>
    buildLoop p [] [] []
      (removeKey (removeKey values "palette".data).2 "inherits".data).2

/-- Model of `impl From<Value> for Theme`: a table is built via
`build_theme_values`; any other value is logged and yields the default
(empty) theme.  `none` models a panic during the build. -/
def themeFromValue (v : Value) : Option Theme :=
  match v with
  | Value.table entries =>
    match buildThemeValues entries with
    | none => none
    | some r => some ⟨[], r.1, r.2.1, r.2.2⟩
  | _ => some Theme.default

/-- Model of `str::rsplit_once('.')`: split at the last dot, returning the
part before and the part after it. -/
def rsplitAux : Str → Str → Option (Str × Str)
  | [], _ => none
  | c :: rest, acc =>
    if c = '.' then some (rest.reverse, acc) else rsplitAux rest (c :: acc)

/-- Split a scope at its last dot (`none` when it has no dot). -/
def rsplitOnce (s : Str) : Option (Str × Str) :=
  rsplitAux s.reverse []

/-- The chain of scopes visited by `Theme::try_get`, produced by the
`successors` iterator: the scope itself, then the result of repeatedly
stripping the last dot-separated segment.  The fuel argument bounds the
recursion; `scopeChain` supplies enough for the chain to be complete. -/
def scopeChainAux : Nat → Str → List Str
  | 0, _ => []
  | fuel + 1, s =>
    s ::
      match rsplitOnce s with
      | none => []
      | some r => scopeChainAux fuel r.1

/-- The complete fallback chain of a scope. -/
def scopeChain (s : Str) : List Str :=
  scopeChainAux (s.length + 1) s

/-- Model of `Iterator::find_map`. -/
def firstSome {α β : Type} (f : α → Option β) : List α → Option β
  | [] => none
  | a :: rest =>
    match f a with
    | some b => some b
    | none => firstSome f rest

/-- Model of `Theme::try_get`: the first defined scope along the fallback
chain wins. -/
def Theme.tryGet (t : Theme) (scope : Str) : Option Style :=
  firstSome (fun s => lookupAssoc t.styles s) (scopeChain scope)

/-- Model of `Theme::try_get_exact`: exact lookup only. -/
def Theme.tryGetExact (t : Theme) (scope : Str) : Option Style :=
  lookupAssoc t.styles scope

/-- Model of `Theme::get`: fallback lookup defaulting to the empty
style. -/
def Theme.get (t : Theme) (scope : Str) : Style :=
  (t.tryGet scope).getD Style.default

/-- Whether an optional color is an RGB color. -/
def isRgbColor : Option Color → Bool
  | some (Color.rgb _ _ _) => true
  | _ => false

/-- Model of `Theme::is_16_color`: no style in the map uses an RGB
foreground or background. -/
def Theme.is16Color (t : Theme) : Bool :=
  t.styles.all (fun kv => !isRgbColor kv.2.fg && !isRgbColor kv.2.bg)

/-- Modelled from the spec: `merge_toml_values` lives in `helix-loader`,
which is not in the shown sources.  Per the spec's glossary, the merge
depth is "how many nested table levels are recursively combined during
inheritance merge before child values simply replace parent values
wholesale": at positive depth, each right-table entry is merged into the
left table one level deeper (replacing in place or appending); at depth
zero, and for non-table right values, the right value wins. -/
def mergeTomlValues : Value → Value → Nat → Value
  | Value.table l, Value.table r, d + 1 =>
    Value.table
      (r.foldl
        (fun acc kv =>
          match lookupAssoc acc kv.1 with
          | some lv => replaceAssoc acc kv.1 (mergeTomlValues lv kv.2 d)
          | none => acc ++ [kv])
        l)
  | Value.table _, Value.table r, 0 => Value.table r
  | _, v, _ => v

/-- Model of `Loader::merge_flavors`: the palette sub-table is merged at
depth 2 (or taken verbatim from whichever side defines it), the rest of
the document at depth 1, and the merged palette is re-inserted on top. -/
def mergeFlavors (parentFlavorToml flavorToml : Value) : Value :=
  let parentPalette := valueGet parentFlavorToml "palette".data
  let palette := valueGet flavorToml "palette".data
  let paletteValues :=
    match parentPalette, palette with
    | some pp, some p => mergeTomlValues pp p 2
    | some pp, none => pp
    | none, some p => p
    | none, none => Value.table []
  let flavor := mergeTomlValues parentFlavorToml flavorToml 1
  mergeTomlValues flavor (Value.table [("palette".data, paletteValues)]) 1

/-- The table-merging fold of `mergeTomlValues` at positive depth, named
for use in lemma statements. -/
def mergeInto (l r : List (Str × Value)) (d : Nat) : List (Str × Value) :=
  r.foldl
    (fun acc kv =>
      match lookupAssoc acc kv.1 with
      | some lv => replaceAssoc acc kv.1 (mergeTomlValues lv kv.2 d)
      | none => acc ++ [kv])
    l

/-- Lowercase hexadecimal digit character for a value below 16. -/
def hexChar (d : Nat) : Char :=
  if d < 10 then Char.ofNat ('0'.toNat + d) else Char.ofNat ('a'.toNat + (d - 10))

/-- Two-digit lowercase hexadecimal rendering of a byte. -/
def hexByte (n : Nat) : Str :=
  [hexChar (n / 16), hexChar (n % 16)]

/-- The token `#RRGGBB` built from the hex digits of three bytes. -/
def hexToken (r g b : Nat) : Str :=
  '#' :: (hexByte r ++ hexByte g ++ hexByte b)

/-- Definition following the spec's words, for comparison with
`hexStringToRgb` (which is translated from the source): a token matching
the pattern "a `#` followed by at least 6 hex digits". -/
def specHexPattern (s : Str) : Bool :=
  match s with
  | '#' :: rest =>
    decide (6 ≤ (rest.takeWhile (fun c => (hexDigitVal c).isSome)).length)
  | _ => false

/-- Concrete two-entry document used to witness the build invariant. -/
def c1doc : List (Str × Value) :=
  [("keyword".data, Value.str "red".data),
   ("ui.text".data, Value.str "#ffffff".data)]

/-- Styles map built from `c1doc`. -/
def c1styles : List (Str × Style) :=
  [("keyword".data, Style.default.withFg Color.red),
   ("ui.text".data, Style.default.withFg (Color.rgb 255 255 255))]

/-- Scope list built from `c1doc`. -/
def c1scopes : List Str :=
  ["keyword".data, "ui.text".data]

/-- Highlight list built from `c1doc`. -/
def c1highlights : List Style :=
  [Style.default.withFg Color.red, Style.default.withFg (Color.rgb 255 255 255)]

/-- Style of the `"ui"` scope in the fallback-lookup example theme. -/
def c2uiStyle : Style := Style.default.withFg Color.red

/-- Style of the `"ui.text"` scope in the fallback-lookup example theme. -/
def c2uiTextStyle : Style := Style.default.withFg Color.blue

/-- Example theme defining only `"ui"` and `"ui.text"`. -/
def c2theme : Theme :=
  ⟨[], [("ui".data, c2uiStyle), ("ui.text".data, c2uiTextStyle)],
   ["ui".data, "ui.text".data], [c2uiStyle, c2uiTextStyle]⟩

/-- Parent document defining only `palette.red`. -/
def c6parent : Value :=
  Value.table [("palette".data, Value.table [("red".data, Value.str "#ff0000".data)])]

/-- Child document defining only `palette.blue`. -/
def c6child : Value :=
  Value.table [("palette".data, Value.table [("blue".data, Value.str "#0000ff".data)])]

/-- Parent document whose `"ui.text"` style sets a foreground and a bold
modifier. -/
def c7parent : Value :=
  Value.table
    [("ui.text".data,
      Value.table
        [("fg".data, Value.str "red".data),
         ("modifiers".data, Value.array [Value.str "bold".data])])]

/-- Child document whose `"ui.text"` style sets only a foreground. -/
def c7child : Value :=
  Value.table
    [("ui.text".data, Value.table [("fg".data, Value.str "blue".data)])]

/-- Document with one malformed scope entry among well-formed ones. -/
def c8doc : List (Str × Value) :=
  [("ui.bad".data, Value.table [("fg".data, Value.str "not_a_color".data)]),
   ("ui.good".data, Value.str "red".data),
   ("keyword".data,
    Value.table
      [("fg".data, Value.str "blue".data),
       ("modifiers".data, Value.array [Value.str "bold".data])])]

/-- Styles map built from `c8doc`: the malformed entry is kept with the
empty partial style, the rest parse fully. -/
def c8styles : List (Str × Style) :=
  [("ui.bad".data, Style.default),
   ("ui.good".data, Style.default.withFg Color.red),
   ("keyword".data, (Style.default.withFg Color.blue).addModifier Modifier.bold)]

/-- Scope list built from `c8doc`. -/
def c8scopes : List Str :=
  ["ui.bad".data, "ui.good".data, "keyword".data]

/-- Highlight list built from `c8doc`. -/
def c8highlights : List Style :=
  [Style.default, Style.default.withFg Color.red,
   (Style.default.withFg Color.blue).addModifier Modifier.bold]

/-- Document using only named built-in colors. -/
def c9namedDoc : Value :=
  Value.table
    [("a".data, Value.str "red".data),
     ("b".data, Value.table [("bg".data, Value.str "blue".data)])]

/-- Document with a single RGB background among named colors. -/
def c9rgbDoc : Value :=
  Value.table
    [("a".data, Value.str "red".data),
     ("b".data, Value.table [("bg".data, Value.str "#123456".data)])]

/-- Decidable equality for `Except`, used to evaluate parse results on
concrete inputs. -/
instance instDecEqExcept {ε α : Type} [DecidableEq ε] [DecidableEq α] :
    DecidableEq (Except ε α) := fun
  | Except.ok a, Except.ok b =>
    if h : a = b then isTrue (by rw [h]) else isFalse (by simp [h])
  | Except.ok _, Except.error _ => isFalse (by simp)
  | Except.error _, Except.ok _ => isFalse (by simp)
  | Except.error a, Except.error b =>
    if h : a = b then isTrue (by rw [h]) else isFalse (by simp [h])

theorem lookupAssoc_insertAssoc_self {α : Type} (l : List (Str × α)) (k : Str) (v : α) :
    lookupAssoc (insertAssoc l k v) k = some v := by
  induction l with
  | nil => simp [insertAssoc, lookupAssoc]
  | cons hd tl ih =>
    obtain ⟨k0, v0⟩ := hd
    by_cases h : k0 = k
    · simp [insertAssoc, h, lookupAssoc]
    · simp [insertAssoc, h, lookupAssoc, ih]

theorem lookupAssoc_insertAssoc_ne {α : Type} (l : List (Str × α)) (k k' : Str) (v : α)
    (h : k' ≠ k) : lookupAssoc (insertAssoc l k v) k' = lookupAssoc l k' := by
  induction l with
  | nil => simp [insertAssoc, lookupAssoc, Ne.symm h]
  | cons hd tl ih =>
    obtain ⟨k0, v0⟩ := hd
    by_cases h1 : k0 = k
    · subst h1
      simp [insertAssoc, lookupAssoc, Ne.symm h]
    · simp [insertAssoc, h1, lookupAssoc, ih]

theorem lookupAssoc_replaceAssoc_ne {α : Type} (l : List (Str × α)) (k k' : Str) (v : α)
    (h : k' ≠ k) : lookupAssoc (replaceAssoc l k v) k' = lookupAssoc l k' := by
  induction l with
  | nil => simp [replaceAssoc]
  | cons hd tl ih =>
    obtain ⟨k0, v0⟩ := hd
    by_cases h1 : k0 = k
    · subst h1
      simp [replaceAssoc, lookupAssoc, Ne.symm h]
    · simp [replaceAssoc, h1, lookupAssoc, ih]

theorem lookupAssoc_replaceAssoc_self {α : Type} (l : List (Str × α)) (k : Str) (v : α)
    (h : (lookupAssoc l k).isSome) : lookupAssoc (replaceAssoc l k v) k = some v := by
  induction l with
  | nil => simp [lookupAssoc] at h
  | cons hd tl ih =>
    obtain ⟨k0, v0⟩ := hd
    by_cases h1 : k0 = k
    · simp [replaceAssoc, h1, lookupAssoc]
    · simp [lookupAssoc, h1] at h
      simp [replaceAssoc, h1, lookupAssoc, ih h]

theorem lookupAssoc_append {α : Type} (l l' : List (Str × α)) (k : Str) :
    lookupAssoc (l ++ l') k =
      match lookupAssoc l k with
      | some v => some v
      | none => lookupAssoc l' k := by
  induction l with
  | nil => simp [lookupAssoc]
  | cons hd tl ih =>
    obtain ⟨k0, v0⟩ := hd
    by_cases h : k0 = k
    · simp [lookupAssoc, h]
    · simp [lookupAssoc, h, ih]

theorem lookupAssoc_isSome_iff_mem {α : Type} (l : List (Str × α)) (k : Str) :
    (lookupAssoc l k).isSome = true ↔ k ∈ keysOf l := by
  induction l with
  | nil => simp [lookupAssoc, keysOf]
  | cons hd tl ih =>
    obtain ⟨k0, v0⟩ := hd
    by_cases h : k0 = k
    · simp only [lookupAssoc, if_pos h, Option.isSome_some, keysOf, List.map_cons,
        List.mem_cons]
      exact ⟨fun _ => Or.inl h.symm, fun _ => trivial⟩
    · simp only [lookupAssoc, if_neg h, keysOf, List.map_cons, List.mem_cons]
      rw [keysOf] at ih
      rw [ih]
      constructor
      · exact fun hh => Or.inr hh
      · rintro (hh | hh)
        · exact absurd hh.symm h
        · exact hh

theorem lookupAssoc_eq_none_of_not_mem {α : Type} (l : List (Str × α)) (k : Str)
    (h : k ∉ keysOf l) : lookupAssoc l k = none := by
  have h2 := (lookupAssoc_isSome_iff_mem l k).not.mpr h
  cases hl : lookupAssoc l k with
  | none => rfl
  | some v => simp [hl] at h2

theorem keysOf_insertAssoc {α : Type} (l : List (Str × α)) (k k' : Str) (v : α) :
    k' ∈ keysOf (insertAssoc l k v) ↔ k' = k ∨ k' ∈ keysOf l := by
  induction l with
  | nil => simp [insertAssoc, keysOf]
  | cons hd tl ih =>
    obtain ⟨k0, v0⟩ := hd
    by_cases h : k0 = k
    · subst h
      have he : insertAssoc ((k0, v0) :: tl) k0 v = (k0, v) :: tl := by
        simp [insertAssoc]
      rw [he]
      simp only [keysOf, List.map_cons, List.mem_cons]
      tauto
    · have he : insertAssoc ((k0, v0) :: tl) k v = (k0, v0) :: insertAssoc tl k v := by
        simp [insertAssoc, h]
      rw [he]
      simp only [keysOf, List.map_cons, List.mem_cons]
      rw [keysOf] at ih
      rw [ih]
      tauto

theorem lookupAssoc_foldl_insert_not_mem {α : Type} (m : List (Str × α))
    (d : List (Str × α)) (k : Str) (h : k ∉ keysOf m) :
    lookupAssoc (m.foldl (fun acc kv => insertAssoc acc kv.1 kv.2) d) k =
      lookupAssoc d k := by
  induction m generalizing d with
  | nil => simp
  | cons hd tl ih =>
    obtain ⟨k0, v0⟩ := hd
    simp only [keysOf, List.map_cons, List.mem_cons] at h
    push_neg at h
    simp only [List.foldl_cons]
    rw [ih _ (by rw [keysOf] at *; exact h.2)]
    exact lookupAssoc_insertAssoc_ne d k0 k v0 h.1

theorem lookupAssoc_foldl_insert_mem {α : Type} (m : List (Str × α))
    (d : List (Str × α)) (k : Str) (v : α) (hnd : (keysOf m).Nodup)
    (h : (k, v) ∈ m) :
    lookupAssoc (m.foldl (fun acc kv => insertAssoc acc kv.1 kv.2) d) k = some v := by
  induction m generalizing d with
  | nil => simp at h
  | cons hd tl ih =>
    obtain ⟨k0, v0⟩ := hd
    simp only [keysOf, List.map_cons, List.nodup_cons] at hnd
    rcases List.mem_cons.mp h with heq | hmem
    · injection heq with hk hv
      subst hk
      subst hv
      simp only [List.foldl_cons]
      rw [lookupAssoc_foldl_insert_not_mem _ _ _ (by rw [keysOf]; exact hnd.1)]
      exact lookupAssoc_insertAssoc_self d k v
    · simp only [List.foldl_cons]
      exact ih _ hnd.2 hmem

theorem mergeTomlValues_table (l r : List (Str × Value)) (d : Nat) :
    mergeTomlValues (Value.table l) (Value.table r) (d + 1) =
      Value.table (mergeInto l r d) := rfl

theorem mergeTomlValues_depth_zero (l r : Value) :
    mergeTomlValues l r 0 = r := by
  cases l <;> cases r <;> rfl

theorem mergeTomlValues_right_non_table (l r : Value) (d : Nat)
    (h : ∀ entries, r ≠ Value.table entries) : mergeTomlValues l r d = r := by
  cases l <;> cases r <;> first
    | rfl
    | (cases d <;> rfl)
    | exact absurd rfl (h _)

theorem lookupAssoc_mergeInto (r : List (Str × Value)) :
    ∀ (l : List (Str × Value)) (d : Nat) (k : Str), (keysOf r).Nodup →
    lookupAssoc (mergeInto l r d) k =
      match lookupAssoc r k with
      | some rv =>
        some
          (match lookupAssoc l k with
           | some lv => mergeTomlValues lv rv d
           | none => rv)
      | none => lookupAssoc l k := by
  induction r with
  | nil => intro l d k _; simp [mergeInto, lookupAssoc]
  | cons hd tl ih =>
    intro l d k hnd
    obtain ⟨k0, rv0⟩ := hd
    simp only [keysOf, List.map_cons, List.nodup_cons] at hnd
    have step :
        mergeInto l ((k0, rv0) :: tl) d =
          mergeInto
            (match lookupAssoc l k0 with
             | some lv => replaceAssoc l k0 (mergeTomlValues lv rv0 d)
             | none => l ++ [(k0, rv0)])
            tl d := by
      simp [mergeInto]
    rw [step, ih _ d k (by rw [keysOf]; exact hnd.2)]
    by_cases hk : k = k0
    · subst hk
      have htl : lookupAssoc tl k = none :=
        lookupAssoc_eq_none_of_not_mem tl k hnd.1
      rw [htl]
      simp only [lookupAssoc, if_pos rfl]
      cases hl : lookupAssoc l k with
      | some lv =>
        simp [lookupAssoc_replaceAssoc_self l k (mergeTomlValues lv rv0 d)
          (by rw [hl]; rfl)]
      | none =>
        simp [lookupAssoc_append, lookupAssoc, hl]
    · have hne : lookupAssoc ((k0, rv0) :: tl) k = lookupAssoc tl k := by
        simp [lookupAssoc, Ne.symm hk]
      rw [hne]
      have hstep :
          lookupAssoc
            (match lookupAssoc l k0 with
             | some lv => replaceAssoc l k0 (mergeTomlValues lv rv0 d)
             | none => l ++ [(k0, rv0)])
            k = lookupAssoc l k := by
        cases hl : lookupAssoc l k0 with
        | some lv =>
          exact lookupAssoc_replaceAssoc_ne l k0 k _ hk
        | none =>
          rw [lookupAssoc_append]
          cases hlk : lookupAssoc l k with
          | some v => rfl
          | none => simp [lookupAssoc, Ne.symm hk]
      rw [hstep]

theorem rsplitAux_length (rev : Str) :
    ∀ (acc p suf : Str), rsplitAux rev acc = some (p, suf) → p.length < rev.length := by
  induction rev with
  | nil => intro acc p suf h; simp [rsplitAux] at h
  | cons c rest ih =>
    intro acc p suf h
    by_cases hc : c = '.'
    · simp only [rsplitAux, if_pos hc] at h
      injection h with h2
      injection h2 with hp hs
      rw [← hp]
      simp only [List.length_reverse, List.length_cons]
      omega
    · simp only [rsplitAux, if_neg hc] at h
      have h3 := ih (c :: acc) p suf h
      simp only [List.length_cons]
      omega

theorem rsplitOnce_length (s p suf : Str) (h : rsplitOnce s = some (p, suf)) :
    p.length < s.length := by
  have := rsplitAux_length s.reverse [] p suf h
  simpa using this

theorem scopeChainAux_succ (fuel : Nat) (s : Str) :
    scopeChainAux (fuel + 1) s =
      s ::
        (match rsplitOnce s with
         | none => []
         | some r => scopeChainAux fuel r.1) := rfl

theorem scopeChainAux_congr (f1 : Nat) :
    ∀ (s : Str) (f2 : Nat), s.length < f1 → s.length < f2 →
      scopeChainAux f1 s = scopeChainAux f2 s := by
  induction f1 with
  | zero => intro s f2 h1 _; omega
  | succ n ih =>
    intro s f2 h1 h2
    cases f2 with
    | zero => omega
    | succ m =>
      rw [scopeChainAux_succ, scopeChainAux_succ]
      cases hr : rsplitOnce s with
      | none => rfl
      | some r =>
        obtain ⟨p, suf⟩ := r
        have hp := rsplitOnce_length s p suf hr
        dsimp only
        rw [ih p m (by omega) (by omega)]

theorem scopeChain_step (s p suf : Str) (h : rsplitOnce s = some (p, suf)) :
    scopeChain s = s :: scopeChain p := by
  have hp := rsplitOnce_length s p suf h
  have h1 : scopeChain s = s :: scopeChainAux s.length p := by
    show scopeChainAux (s.length + 1) s = _
    rw [scopeChainAux_succ, h]
  rw [h1]
  show _ = s :: scopeChainAux (p.length + 1) p
  rw [scopeChainAux_congr s.length p (p.length + 1) hp (by omega)]

theorem scopeChain_last (s : Str) (h : rsplitOnce s = none) :
    scopeChain s = [s] := by
  show scopeChainAux (s.length + 1) s = [s]
  rw [scopeChainAux_succ, h]

theorem tryGet_hit (t : Theme) (s : Str) (h : (lookupAssoc t.styles s).isSome) :
    t.tryGet s = lookupAssoc t.styles s := by
  obtain ⟨st, hst⟩ := Option.isSome_iff_exists.mp h
  have hchain : ∃ rest, scopeChain s = s :: rest := by
    cases hr : rsplitOnce s with
    | none => exact ⟨[], scopeChain_last s hr⟩
    | some r => exact ⟨scopeChain r.1, scopeChain_step s r.1 r.2 hr⟩
  obtain ⟨rest, hrest⟩ := hchain
  simp [Theme.tryGet, hrest, firstSome, hst]

theorem tryGet_fallback (t : Theme) (s p suf : Str)
    (h1 : lookupAssoc t.styles s = none) (h2 : rsplitOnce s = some (p, suf)) :
    t.tryGet s = t.tryGet p := by
  unfold Theme.tryGet
  rw [scopeChain_step s p suf h2]
  simp only [firstSome, h1]

theorem tryGet_exhausted (t : Theme) (s : Str)
    (h1 : lookupAssoc t.styles s = none) (h2 : rsplitOnce s = none) :
    t.tryGet s = none := by
  unfold Theme.tryGet
  rw [scopeChain_last s h2]
  simp only [firstSome, h1]

theorem buildLoop_preserve (p : ThemePalette) (l : List (Str × Value)) :
    ∀ (styles : List (Str × Style)) (scopes : List Str) (highlights : List Style)
      (S : List (Str × Style)) (SC : List Str) (HL : List Style) (k : Str),
    buildLoop p styles scopes highlights l = some (S, SC, HL) →
    k ∉ keysOf l →
    lookupAssoc S k = lookupAssoc styles k ∧ (k ∈ SC ↔ k ∈ scopes) := by
  induction l with
  | nil =>
    intro styles scopes highlights S SC HL k h hk
    simp only [buildLoop] at h
    injection h with h2
    injection h2 with hS h3
    injection h3 with hSC hHL
    subst hS
    subst hSC
    exact ⟨rfl, Iff.rfl⟩
  | cons hd tl ih =>
    intro styles scopes highlights S SC HL k h hk
    obtain ⟨n0, v0⟩ := hd
    simp only [keysOf, List.map_cons, List.mem_cons] at hk
    push_neg at hk
    simp only [buildLoop] at h
    cases hp : parseStyle p Style.default v0 with
    | none => rw [hp] at h; exact absurd h (by simp)
    | some r =>
      obtain ⟨st0, e0⟩ := r
      rw [hp] at h
      have hrec := ih _ _ _ S SC HL k h (by rw [keysOf] at *; exact hk.2)
      obtain ⟨h1, h2⟩ := hrec
      refine ⟨?_, ?_⟩
      · rw [h1]
        exact lookupAssoc_insertAssoc_ne styles n0 k st0 hk.1
      · rw [h2]
        simp [hk.1]

theorem buildLoop_entry (p : ThemePalette) (l : List (Str × Value)) :
    ∀ (styles : List (Str × Style)) (scopes : List Str) (highlights : List Style)
      (S : List (Str × Style)) (SC : List Str) (HL : List Style)
      (name : Str) (v : Value) (st : Style) (e : Option Str),
    buildLoop p styles scopes highlights l = some (S, SC, HL) →
    (keysOf l).Nodup →
    (name, v) ∈ l →
    parseStyle p Style.default v = some (st, e) →
    lookupAssoc S name = some st ∧ name ∈ SC := by
  induction l with
  | nil =>
    intro _ _ _ _ _ _ _ _ _ _ _ _ hmem
    simp at hmem
  | cons hd tl ih =>
    intro styles scopes highlights S SC HL name v st e h hnd hmem hparse
    obtain ⟨n0, v0⟩ := hd
    simp only [keysOf, List.map_cons, List.nodup_cons] at hnd
    simp only [buildLoop] at h
    cases hp : parseStyle p Style.default v0 with
    | none => rw [hp] at h; exact absurd h (by simp)
    | some r =>
      obtain ⟨st0, e0⟩ := r
      rw [hp] at h
      rcases List.mem_cons.mp hmem with heq | hmem2
      · injection heq with hn hv
        subst hn
        subst hv
        rw [hparse] at hp
        injection hp with hp2
        injection hp2 with hst he
        subst hst
        have hpres :=
          buildLoop_preserve p tl _ _ _ S SC HL name h
            (by rw [keysOf]; exact hnd.1)
        obtain ⟨h1, h2⟩ := hpres
        refine ⟨?_, ?_⟩
        · rw [h1]
          exact lookupAssoc_insertAssoc_self styles name st
        · rw [h2]
          simp
      · exact ih _ _ _ S SC HL name v st e h (by rw [keysOf]; exact hnd.2) hmem2 hparse

theorem buildLoop_isSome (p : ThemePalette) (l : List (Str × Value)) :
    ∀ (styles : List (Str × Style)) (scopes : List Str) (highlights : List Style),
    (∀ kv ∈ l, parseStyle p Style.default kv.2 ≠ none) →
    (buildLoop p styles scopes highlights l).isSome := by
  induction l with
  | nil => intro styles scopes highlights _; simp [buildLoop]
  | cons hd tl ih =>
    intro styles scopes highlights hall
    obtain ⟨n0, v0⟩ := hd
    simp only [buildLoop]
    cases hp : parseStyle p Style.default v0 with
    | none =>
      exact absurd hp (hall (n0, v0) (List.mem_cons_self _ _))
    | some r =>
      obtain ⟨st0, e0⟩ := r
      exact ih _ _ _ (fun kv hkv => hall kv (List.mem_cons_of_mem _ hkv))

theorem buildLoop_invariant (p : ThemePalette) (l : List (Str × Value)) :
    ∀ (styles : List (Str × Style)) (scopes : List Str) (highlights : List Style)
      (S : List (Str × Style)) (SC : List Str) (HL : List Style),
    buildLoop p styles scopes highlights l = some (S, SC, HL) →
    (keysOf l).Nodup →
    (∀ k ∈ keysOf l, k ∉ scopes) →
    scopes.length = highlights.length →
    (∀ (i : Nat) (s : Str) (st : Style),
      scopes[i]? = some s → highlights[i]? = some st → lookupAssoc styles s = some st) →
    (∀ k, (lookupAssoc styles k).isSome = true ↔ k ∈ scopes) →
    SC.length = HL.length ∧
      (∀ (i : Nat) (s : Str) (st : Style),
        SC[i]? = some s → HL[i]? = some st → lookupAssoc S s = some st) ∧
      (∀ k, (lookupAssoc S k).isSome = true ↔ k ∈ SC) := by
  induction l with
  | nil =>
    intro styles scopes highlights S SC HL h _ _ hlen hidx hkeys
    simp only [buildLoop] at h
    injection h with h2
    injection h2 with hS h3
    injection h3 with hSC hHL
    subst hS
    subst hSC
    subst hHL
    exact ⟨hlen, hidx, hkeys⟩
  | cons hd tl ih =>
    intro styles scopes highlights S SC HL h hnd hdisj hlen hidx hkeys
    obtain ⟨n0, v0⟩ := hd
    simp only [keysOf, List.map_cons, List.nodup_cons] at hnd
    have hn0 : n0 ∉ scopes :=
      hdisj n0 (by rw [keysOf]; rw [List.map_cons]; exact List.mem_cons_self _ _)
    simp only [buildLoop] at h
    cases hp : parseStyle p Style.default v0 with
    | none => rw [hp] at h; exact absurd h (by simp)
    | some r =>
      obtain ⟨st0, e0⟩ := r
      rw [hp] at h
      refine ih _ _ _ S SC HL h (by rw [keysOf]; exact hnd.2) ?_ ?_ ?_ ?_
      · intro k hk
        have hk1 : k ≠ n0 := by
          intro he
          subst he
          exact hnd.1 (by rw [keysOf] at hk; exact hk)
        have hk2 : k ∉ scopes :=
          hdisj k (by rw [keysOf] at hk ⊢; rw [List.map_cons]; exact List.mem_cons_of_mem _ hk)
        simp [hk1, hk2]
      · simp [hlen]
      · intro i s st hs hst
        by_cases hi : i < scopes.length
        · rw [List.getElem?_append_left hi] at hs
          rw [List.getElem?_append_left (by omega)] at hst
          have hlook := hidx i s st hs hst
          have hsne : s ≠ n0 := by
            intro he
            subst he
            exact hn0 (List.getElem?_mem hs)
          rw [lookupAssoc_insertAssoc_ne styles n0 s st0 hsne]
          exact hlook
        · by_cases hi2 : i = scopes.length
          · subst hi2
            rw [List.getElem?_concat_length] at hs
            rw [hlen, List.getElem?_concat_length] at hst
            injection hs with hs2
            injection hst with hst2
            rw [← hs2, ← hst2]
            exact lookupAssoc_insertAssoc_self styles n0 st0
          · rw [List.getElem?_append_right (by omega)] at hs
            have : i - scopes.length ≠ 0 := by omega
            cases hq : i - scopes.length with
            | zero => exact absurd hq this
            | succ j => rw [hq] at hs; simp at hs
      · intro k
        rw [List.mem_append]
        constructor
        · intro hsome
          by_cases hk : k = n0
          · subst hk
            simp
          · rw [lookupAssoc_insertAssoc_ne styles n0 k st0 hk] at hsome
            exact Or.inl ((hkeys k).mp hsome)
        · rintro (hmem | hmem)
          · have hk : k ≠ n0 := by
              intro he
              subst he
              exact hn0 hmem
            rw [lookupAssoc_insertAssoc_ne styles n0 k st0 hk]
            exact (hkeys k).mpr hmem
          · simp only [List.mem_singleton] at hmem
            subst hmem
            rw [lookupAssoc_insertAssoc_self styles k st0]
            rfl

theorem mem_keysOf {α : Type} (l : List (Str × α)) (kv : Str × α) (h : kv ∈ l) :
    kv.1 ∈ keysOf l :=
  List.mem_map_of_mem Prod.fst h

theorem mem_of_lookupAssoc {α : Type} (l : List (Str × α)) (k : Str) (v : α)
    (h : lookupAssoc l k = some v) : (k, v) ∈ l := by
  induction l with
  | nil => simp [lookupAssoc] at h
  | cons hd tl ih =>
    obtain ⟨k0, v0⟩ := hd
    by_cases hk : k0 = k
    · subst hk
      simp only [lookupAssoc, if_pos rfl] at h
      injection h with h2
      subst h2
      exact List.mem_cons_self _ _
    · simp only [lookupAssoc, if_neg hk] at h
      exact List.mem_cons_of_mem _ (ih h)

theorem keysOf_removeKey_sublist {α : Type} (l : List (Str × α)) (k : Str) :
    List.Sublist (keysOf (removeKey l k).2) (keysOf l) := by
  induction l with
  | nil => simp [removeKey]
  | cons hd tl ih =>
    obtain ⟨k0, v0⟩ := hd
    by_cases hk : k0 = k
    · simp only [removeKey, if_pos hk, keysOf, List.map_cons]
      exact List.sublist_cons_self _ _
    · simp only [removeKey, if_neg hk, keysOf, List.map_cons]
      exact List.Sublist.cons₂ k0 ih

theorem mem_of_mem_removeKey {α : Type} (l : List (Str × α)) (k : Str) (kv : Str × α)
    (h : kv ∈ (removeKey l k).2) : kv ∈ l := by
  induction l with
  | nil => simp [removeKey] at h
  | cons hd tl ih =>
    obtain ⟨k0, v0⟩ := hd
    by_cases hk : k0 = k
    · simp only [removeKey, if_pos hk] at h
      exact List.mem_cons_of_mem _ h
    · simp only [removeKey, if_neg hk] at h
      rcases List.mem_cons.mp h with heq | hmem
      · exact heq ▸ List.mem_cons_self _ _
      · exact List.mem_cons_of_mem _ (ih hmem)

theorem key_ne_of_mem_removeKey {α : Type} (l : List (Str × α)) (k : Str)
    (hnd : (keysOf l).Nodup) (kv : Str × α) (h : kv ∈ (removeKey l k).2) :
    kv.1 ≠ k := by
  induction l with
  | nil => simp [removeKey] at h
  | cons hd tl ih =>
    obtain ⟨k0, v0⟩ := hd
    simp only [keysOf, List.map_cons, List.nodup_cons] at hnd
    by_cases hk : k0 = k
    · subst hk
      simp only [removeKey, if_pos rfl] at h
      intro he
      exact hnd.1 (he ▸ mem_keysOf tl kv h)
    · simp only [removeKey, if_neg hk] at h
      rcases List.mem_cons.mp h with heq | hmem
      · subst heq
        exact hk
      · exact ih (by rw [keysOf]; exact hnd.2) hmem

theorem mem_removeKey_of_ne {α : Type} (l : List (Str × α)) (k : Str) (kv : Str × α)
    (h : kv ∈ l) (hne : kv.1 ≠ k) : kv ∈ (removeKey l k).2 := by
  induction l with
  | nil => simp at h
  | cons hd tl ih =>
    obtain ⟨k0, v0⟩ := hd
    by_cases hk : k0 = k
    · subst hk
      simp only [removeKey, if_pos rfl]
      rcases List.mem_cons.mp h with heq | hmem
      · exact absurd (congrArg Prod.fst heq) hne
      · exact hmem
    · simp only [removeKey, if_neg hk]
      rcases List.mem_cons.mp h with heq | hmem
      · exact heq ▸ List.mem_cons_self _ _
      · exact List.mem_cons_of_mem _ (ih hmem)

theorem isRgbColor_eq_false_iff (o : Option Color) :
    isRgbColor o = false ↔ ∀ r g b : Nat, o ≠ some (Color.rgb r g b) := by
  cases o with
  | none => simp [isRgbColor]
  | some c => cases c <;> simp [isRgbColor]

theorem mergeFlavors_palette_lookup (pT cT : List (Str × Value)) :
    valueGet (mergeFlavors (Value.table pT) (Value.table cT)) "palette".data =
      some
        (match lookupAssoc pT "palette".data, lookupAssoc cT "palette".data with
         | some pp, some p => mergeTomlValues pp p 2
         | some pp, none => pp
         | none, some p => p
         | none, none => Value.table []) := by
  unfold mergeFlavors
  rw [mergeTomlValues_table, mergeTomlValues_table]
  simp only [valueGet]
  rw [lookupAssoc_mergeInto _ _ _ _ (by simp [keysOf])]
  simp only [lookupAssoc, if_pos rfl]
  cases hf : lookupAssoc (mergeInto pT cT 0) "palette".data with
  | none => rfl
  | some lv => simp [mergeTomlValues_depth_zero]

theorem utf8Size_hexChar (d : Nat) (h : d < 16) : (hexChar d).utf8Size = 1 := by
  interval_cases d <;> decide

theorem hexDigitVal_hexChar (d : Nat) (h : d < 16) :
    hexDigitVal (hexChar d) = some d := by
  interval_cases d <;> decide

theorem hexChar_ne_plus (d : Nat) (h : d < 16) : hexChar d ≠ '+' := by
  interval_cases d <;> decide

theorem dropBytes_cons_one (c : Char) (l : Str) (n : Nat) (h : c.utf8Size = 1) :
    dropBytes (c :: l) (n + 1) = dropBytes l n := by
  simp [dropBytes, h]

theorem takeBytes_cons_one (c : Char) (l : Str) (n : Nat) (h : c.utf8Size = 1) :
    takeBytes (c :: l) (n + 1) = (takeBytes l n).map (c :: ·) := by
  simp [takeBytes, h]

theorem dropBytes_zero (l : Str) : dropBytes l 0 = some l := by
  cases l <;> rfl

theorem takeBytes_zero (l : Str) : takeBytes l 0 = some [] := by
  cases l <;> rfl

theorem hexDigitsAcc_pair (hi lo : Nat) (h1 : hi < 16) (h2 : lo < 16) :
    hexDigitsAcc 0 [hexChar hi, hexChar lo] = some (hi * 16 + lo) := by
  simp only [hexDigitsAcc, hexDigitVal_hexChar hi h1, hexDigitVal_hexChar lo h2,
    Nat.zero_mul, Nat.zero_add]
  rw [if_pos (by omega), if_pos (by omega)]

theorem fromStrRadix16_pair (c1 c2 : Char) (h : c1 ≠ '+') :
    fromStrRadix16 [c1, c2] = hexDigitsAcc 0 [c1, c2] := by
  simp [fromStrRadix16, h]

theorem hexStringToRgb_hexToken (r g b : Nat) (hr : r < 256) (hg : g < 256)
    (hb : b < 256) :
    hexStringToRgb (hexToken r g b) = some (Except.ok (Color.rgb r g b)) := by
  have hr1 : r / 16 < 16 := by omega
  have hr2 : r % 16 < 16 := by omega
  have hg1 : g / 16 < 16 := by omega
  have hg2 : g % 16 < 16 := by omega
  have hb1 : b / 16 < 16 := by omega
  have hb2 : b % 16 < 16 := by omega
  have hsharp : ('#' : Char).utf8Size = 1 := by decide
  have htok : hexToken r g b =
      '#' :: hexChar (r / 16) :: hexChar (r % 16) :: hexChar (g / 16) ::
        hexChar (g % 16) :: hexChar (b / 16) :: [hexChar (b % 16)] := by
    simp [hexToken, hexByte]
  have hlen : utf8Len (hexToken r g b) = 7 := by
    rw [htok]
    simp [utf8Len, hsharp, utf8Size_hexChar _ hr1, utf8Size_hexChar _ hr2,
      utf8Size_hexChar _ hg1, utf8Size_hexChar _ hg2, utf8Size_hexChar _ hb1,
      utf8Size_hexChar _ hb2]
  have hhead : (hexToken r g b).head? = some '#' := by rw [htok]; rfl
  rw [hexStringToRgb, if_pos ⟨hhead, by omega⟩]
  rw [htok]
  have hs1 : byteSlice ('#' :: hexChar (r / 16) :: hexChar (r % 16) :: hexChar (g / 16) ::
      hexChar (g % 16) :: hexChar (b / 16) :: [hexChar (b % 16)]) 1 3 =
      some [hexChar (r / 16), hexChar (r % 16)] := by
    simp [byteSlice, dropBytes, takeBytes, hsharp, utf8Size_hexChar _ hr1,
      utf8Size_hexChar _ hr2]
  have hs2 : byteSlice ('#' :: hexChar (r / 16) :: hexChar (r % 16) :: hexChar (g / 16) ::
      hexChar (g % 16) :: hexChar (b / 16) :: [hexChar (b % 16)]) 3 5 =
      some [hexChar (g / 16), hexChar (g % 16)] := by
    simp [byteSlice, dropBytes, takeBytes, hsharp, utf8Size_hexChar _ hr1,
      utf8Size_hexChar _ hr2, utf8Size_hexChar _ hg1, utf8Size_hexChar _ hg2]
  have hs3 : byteSlice ('#' :: hexChar (r / 16) :: hexChar (r % 16) :: hexChar (g / 16) ::
      hexChar (g % 16) :: hexChar (b / 16) :: [hexChar (b % 16)]) 5 7 =
      some [hexChar (b / 16), hexChar (b % 16)] := by
    simp [byteSlice, dropBytes, takeBytes, hsharp, utf8Size_hexChar _ hr1,
      utf8Size_hexChar _ hr2, utf8Size_hexChar _ hg1, utf8Size_hexChar _ hg2,
      utf8Size_hexChar _ hb1, utf8Size_hexChar _ hb2]
  rw [hs1, hs2, hs3]
  dsimp only
  rw [fromStrRadix16_pair _ _ (hexChar_ne_plus _ hr1)]
  rw [fromStrRadix16_pair _ _ (hexChar_ne_plus _ hg1)]
  rw [fromStrRadix16_pair _ _ (hexChar_ne_plus _ hb1)]
  rw [hexDigitsAcc_pair _ _ hr1 hr2, hexDigitsAcc_pair _ _ hg1 hg2,
    hexDigitsAcc_pair _ _ hb1 hb2]
  dsimp only
  have er : r / 16 * 16 + r % 16 = r := by omega
  have eg : g / 16 * 16 + g % 16 = g := by omega
  have eb : b / 16 * 16 + b % 16 = b := by omega
  rw [er, eg, eb]

theorem hexStringToRgb_error_msg (s : Str) (e : Str)
    (h : hexStringToRgb s = some (Except.error e)) : e = malformedHexMsg s := by
  by_cases hg : (s.head? = some '#' ∧ 7 ≤ utf8Len s)
  · rw [hexStringToRgb, if_pos hg] at h
    cases h1 : byteSlice s 1 3 with
    | none => rw [h1] at h; exact absurd h (by simp)
    | some s1 =>
      rw [h1] at h
      dsimp only at h
      cases h2 : byteSlice s 3 5 with
      | none => rw [h2] at h; exact absurd h (by simp)
      | some s2 =>
        rw [h2] at h
        dsimp only at h
        cases h3 : byteSlice s 5 7 with
        | none => rw [h3] at h; exact absurd h (by simp)
        | some s3 =>
          rw [h3] at h
          dsimp only at h
          cases f1 : fromStrRadix16 s1 <;> cases f2 : fromStrRadix16 s2 <;>
              cases f3 : fromStrRadix16 s3 <;>
            rw [f1, f2, f3] at h <;> dsimp only at h <;> simp_all
  · rw [hexStringToRgb, if_neg hg] at h
    injection h with h2
    injection h2 with h3
    exact h3.symm

theorem hexStringToRgb_reject (s : Str)
    (h : ¬(s.head? = some '#' ∧ 7 ≤ utf8Len s)) :
    hexStringToRgb s = some (Except.error (malformedHexMsg s)) := by
  rw [hexStringToRgb, if_neg h]

theorem parseColor_hex_path (p : ThemePalette) (s : Str)
    (h : lookupAssoc p.palette s = none) :
    parseColor p (Value.str s) = hexStringToRgb s := by
  simp [parseColor, parseValueAsStr, h]

theorem is16Color_iff (t : Theme) :
    t.is16Color = true ↔
      ∀ kv ∈ t.styles,
        (∀ r g b : Nat, kv.2.fg ≠ some (Color.rgb r g b)) ∧
        (∀ r g b : Nat, kv.2.bg ≠ some (Color.rgb r g b)) := by
  unfold Theme.is16Color
  rw [List.all_eq_true]
  constructor
  · intro h kv hkv
    have h2 := h kv hkv
    simp only [Bool.and_eq_true, Bool.not_eq_true'] at h2
    exact ⟨(isRgbColor_eq_false_iff _).mp h2.1, (isRgbColor_eq_false_iff _).mp h2.2⟩
  · intro h kv hkv
    have h2 := h kv hkv
    simp only [Bool.and_eq_true, Bool.not_eq_true']
    exact ⟨(isRgbColor_eq_false_iff _).mpr h2.1, (isRgbColor_eq_false_iff _).mpr h2.2⟩

theorem mergeFlavors_other_lookup (pT cT : List (Str × Value)) (k : Str)
    (hnd : (keysOf cT).Nodup) (hk : k ≠ "palette".data) :
    valueGet (mergeFlavors (Value.table pT) (Value.table cT)) k =
      match lookupAssoc cT k with
      | some v => some v
      | none => lookupAssoc pT k := by
  unfold mergeFlavors
  rw [mergeTomlValues_table, mergeTomlValues_table]
  simp only [valueGet]
  rw [lookupAssoc_mergeInto _ _ _ _ (by simp [keysOf])]
  simp only [lookupAssoc, if_neg (Ne.symm hk)]
  rw [lookupAssoc_mergeInto _ _ _ _ hnd]
  cases hc : lookupAssoc cT k with
  | none => rfl
  | some rv =>
    dsimp only
    cases hp : lookupAssoc pT k with
    | none => rfl
    | some lv =>
      dsimp only
      rw [mergeTomlValues_depth_zero]

/-- C1: for every theme built from a document via `buildThemeValues` (with
the distinct keys a TOML map guarantees), the scopes list and the
highlights list have equal length, looking up `scopes[i]` in the styles
map yields exactly `highlights[i]` for every index `i`, and the key set of
the styles map equals the set of names in the scopes list. -/
theorem c1_build_invariant (values : List (Str × Value))
    (S : List (Str × Style)) (SC : List Str) (HL : List Style)
    (hnd : (keysOf values).Nodup)
    (hbuild : buildThemeValues values = some (S, SC, HL)) :
    SC.length = HL.length ∧
      (∀ (i : Nat) (s : Str) (st : Style),
        SC[i]? = some s → HL[i]? = some st → lookupAssoc S s = some st) ∧
      (∀ k, (lookupAssoc S k).isSome = true ↔ k ∈ SC) := by
  unfold buildThemeValues at hbuild
  cases hpal : themePaletteOf values with
  | none => rw [hpal] at hbuild; exact absurd hbuild (by simp)
  | some p =>
    rw [hpal] at hbuild
    have hnd2 :
        (keysOf (removeKey (removeKey values "palette".data).2 "inherits".data).2).Nodup :=
      List.Nodup.sublist (keysOf_removeKey_sublist _ _)
        (List.Nodup.sublist (keysOf_removeKey_sublist _ _) hnd)
    exact buildLoop_invariant p _ [] [] [] S SC HL hbuild hnd2
      (fun k _ => List.not_mem_nil k) rfl
      (fun i s st hs _ => by simp at hs)
      (fun k => by simp [lookupAssoc])

/-- Witness for C1: the invariant evaluated on a concrete two-entry
document. -/
theorem c1_build_invariant_witness :
    c1scopes.length = c1highlights.length ∧
      lookupAssoc c1styles "ui.text".data =
        some (Style.default.withFg (Color.rgb 255 255 255)) := by
  have h := c1_build_invariant c1doc c1styles c1scopes c1highlights (by decide) rfl
  exact ⟨h.1,
    h.2.1 1 "ui.text".data (Style.default.withFg (Color.rgb 255 255 255)) rfl rfl⟩

/-- C2: the fallback lookup `try_get` first tries the exact scope; on a
miss it strips the last dot-separated segment and retries, so the first
(longest) defined prefix wins, and it returns `none` when no prefix
(including the full scope) is defined.  Concretely, on a theme defining
only `"ui"` and `"ui.text"`, `"ui.text.focus"` resolves to the style of
`"ui.text"`, and `"diagnostic.error"` resolves to `none`. -/
theorem c2_fallback_lookup :
    (∀ (t : Theme) (s : Str), (lookupAssoc t.styles s).isSome = true →
        t.tryGet s = lookupAssoc t.styles s) ∧
    (∀ (t : Theme) (s p suf : Str), lookupAssoc t.styles s = none →
        rsplitOnce s = some (p, suf) → t.tryGet s = t.tryGet p) ∧
    (∀ (t : Theme) (s : Str), lookupAssoc t.styles s = none →
        rsplitOnce s = none → t.tryGet s = none) ∧
    rsplitOnce "ui.text.focus".data = some ("ui.text".data, "focus".data) ∧
    c2theme.tryGet "ui.text.focus".data = some c2uiTextStyle ∧
    c2theme.tryGet "diagnostic.error".data = none :=
  ⟨tryGet_hit, tryGet_fallback, tryGet_exhausted, by decide, by decide, by decide⟩

/-- Witness for C2: the fallback step applied at a concrete miss. -/
theorem c2_fallback_lookup_witness :
    c2theme.tryGet "diagnostic.error".data = c2theme.tryGet "diagnostic".data :=
  c2_fallback_lookup.2.1 c2theme "diagnostic.error".data "diagnostic".data
    "error".data (by decide) (by decide)

/-- C3 counterexample: converting a non-table document does not fail the
load; it produces the default (empty) theme, so no `DocumentNotATable`
error reaches the caller. -/
theorem c3_counterexample :
    themeFromValue (Value.str "oops".data) = some Theme.default := rfl

/-- C3 (amended): when the top-level theme document is not a table, the
conversion logs a warning and yields the default (empty) theme; the load
succeeds with that theme instead of surfacing an error. -/
theorem c3_non_table_default (v : Value)
    (h : ∀ entries, v ≠ Value.table entries) :
    themeFromValue v = some Theme.default := by
  cases v with
  | table entries => exact absurd rfl (h entries)
  | str s => rfl
  | integer n => rfl
  | boolean b => rfl
  | array items => rfl

/-- Witness for C3's amended statement at a concrete non-table value. -/
theorem c3_non_table_default_witness :
    themeFromValue (Value.boolean true) = some Theme.default :=
  c3_non_table_default (Value.boolean true) (fun _ h => Value.noConfusion h)

/-- C4 counterexample: the token `"#+1+2+3"` is neither a palette name nor
a `#` followed by six hex digits (its second character is `+`), yet color
resolution accepts it — the byte-pair parses inherit `from_str_radix`'s
tolerance for a leading `+` — returning an RGB color instead of a
malformed-color error. -/
theorem c4_counterexample :
    specHexPattern "#+1+2+3".data = false ∧
    lookupAssoc ThemePalette.default.palette "#+1+2+3".data = none ∧
    parseColor ThemePalette.default (Value.str "#+1+2+3".data) =
      some (Except.ok (Color.rgb 1 2 3)) :=
  ⟨by decide, by decide, by decide⟩

/-- C4 (amended): resolving the token built from the six hex digits of
`(r,g,b)` with a palette that does not name it yields exactly
`Rgb(r,g,b)`; a string token absent from the palette is resolved by the
byte-pair hex parser, whose failures always carry the offending token in
the malformed-hexcode error; any token that does not start with `#` or is
shorter than 7 bytes fails with that error.  (Tokens whose first seven
bytes parse as `#` plus three hexadecimal byte pairs are accepted even
when they are not literally six hex digits — see the counterexample — and
byte pairs falling on non-character boundaries panic, see C10.) -/
theorem c4_hex_resolution :
    (∀ (p : ThemePalette) (r g b : Nat), r < 256 → g < 256 → b < 256 →
        lookupAssoc p.palette (hexToken r g b) = none →
        parseColor p (Value.str (hexToken r g b)) =
          some (Except.ok (Color.rgb r g b))) ∧
    (∀ (p : ThemePalette) (s : Str), lookupAssoc p.palette s = none →
        parseColor p (Value.str s) = hexStringToRgb s) ∧
    (∀ (s e : Str), hexStringToRgb s = some (Except.error e) →
        e = malformedHexMsg s) ∧
    (∀ s : Str, ¬(s.head? = some '#' ∧ 7 ≤ utf8Len s) →
        hexStringToRgb s = some (Except.error (malformedHexMsg s))) := by
  refine ⟨?_, parseColor_hex_path, hexStringToRgb_error_msg, hexStringToRgb_reject⟩
  intro p r g b hr hg hb hlook
  rw [parseColor_hex_path p _ hlook]
  exact hexStringToRgb_hexToken r g b hr hg hb

/-- Witness for C4's amended statement at `(255, 0, 17)`. -/
theorem c4_hex_resolution_witness :
    parseColor ThemePalette.default (Value.str (hexToken 255 0 17)) =
      some (Except.ok (Color.rgb 255 0 17)) :=
  c4_hex_resolution.1 ThemePalette.default 255 0 17 (by decide) (by decide)
    (by decide) (by decide)

/-- C5: document palette entries are layered over the 16 built-in names:
a document entry (including one shadowing a built-in such as `"red"`)
wins every subsequent resolution of that name, while names absent from
the document resolve to their built-in color. -/
theorem c5_palette_precedence :
    (∀ (m : List (Str × Color)) (name : Str) (c : Color), (keysOf m).Nodup →
        (name, c) ∈ m →
        lookupAssoc (ThemePalette.new m).palette name = some c) ∧
    (∀ (m : List (Str × Color)) (name : Str), name ∉ keysOf m →
        lookupAssoc (ThemePalette.new m).palette name =
          lookupAssoc ThemePalette.default.palette name) ∧
    (∀ (m : List (Str × Color)) (name : Str) (c : Color), (keysOf m).Nodup →
        (name, c) ∈ m →
        parseColor (ThemePalette.new m) (Value.str name) = some (Except.ok c)) ∧
    parseColor (ThemePalette.new [("red".data, Color.rgb 10 20 30)])
        (Value.str "red".data) = some (Except.ok (Color.rgb 10 20 30)) ∧
    parseColor (ThemePalette.new [("red".data, Color.rgb 10 20 30)])
        (Value.str "blue".data) = some (Except.ok Color.blue) := by
  have h1 : ∀ (m : List (Str × Color)) (name : Str) (c : Color), (keysOf m).Nodup →
      (name, c) ∈ m → lookupAssoc (ThemePalette.new m).palette name = some c := by
    intro m name c hnd hm
    exact lookupAssoc_foldl_insert_mem m _ name c hnd hm
  refine ⟨h1, ?_, ?_, by decide, by decide⟩
  · intro m name hnm
    exact lookupAssoc_foldl_insert_not_mem m _ name hnm
  · intro m name c hnd hm
    simp [parseColor, parseValueAsStr, h1 m name c hnd hm]

/-- Witness for C5: a document palette entry named `"red"` overrides the
built-in red. -/
theorem c5_palette_precedence_witness :
    parseColor (ThemePalette.new [("red".data, Color.rgb 10 20 30)])
      (Value.str "red".data) = some (Except.ok (Color.rgb 10 20 30)) :=
  c5_palette_precedence.2.2.1 [("red".data, Color.rgb 10 20 30)] "red".data
    (Color.rgb 10 20 30) (by decide) (by decide)

/-- C6: the palette sub-table is merged at depth 2: with both sides
defining a palette of (non-table) color values, the merged palette maps
every key to the child value when the child defines it and to the parent
value otherwise; if only one side defines a palette, that side's palette
is used verbatim; and the concrete red/blue example merges to a palette
holding both. -/
theorem c6_palette_merge :
    (∀ (pT cT pp cp : List (Str × Value)),
      (keysOf cp).Nodup →
      lookupAssoc pT "palette".data = some (Value.table pp) →
      lookupAssoc cT "palette".data = some (Value.table cp) →
      (∀ kv ∈ cp, ∀ entries, kv.2 ≠ Value.table entries) →
      valueGet (mergeFlavors (Value.table pT) (Value.table cT)) "palette".data =
          some (Value.table (mergeInto pp cp 1)) ∧
        ∀ k, lookupAssoc (mergeInto pp cp 1) k =
          match lookupAssoc cp k with
          | some v => some v
          | none => lookupAssoc pp k) ∧
    (∀ (pT cT : List (Str × Value)) (pv : Value),
      lookupAssoc pT "palette".data = some pv →
      lookupAssoc cT "palette".data = none →
      valueGet (mergeFlavors (Value.table pT) (Value.table cT)) "palette".data =
        some pv) ∧
    (∀ (pT cT : List (Str × Value)) (cv : Value),
      lookupAssoc pT "palette".data = none →
      lookupAssoc cT "palette".data = some cv →
      valueGet (mergeFlavors (Value.table pT) (Value.table cT)) "palette".data =
        some cv) ∧
    valueGet (mergeFlavors c6parent c6child) "palette".data =
      some (Value.table
        [("red".data, Value.str "#ff0000".data),
         ("blue".data, Value.str "#0000ff".data)]) := by
  refine ⟨?_, ?_, ?_, rfl⟩
  · intro pT cT pp cp hnd hp hc hnt
    constructor
    · rw [mergeFlavors_palette_lookup, hp, hc]
      dsimp only
      rw [mergeTomlValues_table]
    · intro k
      rw [lookupAssoc_mergeInto cp pp 1 k hnd]
      cases hck : lookupAssoc cp k with
      | none => rfl
      | some rv =>
        dsimp only
        cases hpk : lookupAssoc pp k with
        | none => rfl
        | some lv =>
          dsimp only
          rw [mergeTomlValues_right_non_table lv rv 1
            (hnt (k, rv) (mem_of_lookupAssoc cp k rv hck))]
  · intro pT cT pv hp hc
    rw [mergeFlavors_palette_lookup, hp, hc]
  · intro pT cT cv hp hc
    rw [mergeFlavors_palette_lookup, hp, hc]

/-- Witness for C6: a parent-only palette is used verbatim. -/
theorem c6_palette_merge_witness :
    valueGet
        (mergeFlavors
          (Value.table
            [("palette".data, Value.table [("red".data, Value.str "#ff0000".data)])])
          (Value.table []))
        "palette".data =
      some (Value.table [("red".data, Value.str "#ff0000".data)]) :=
  c6_palette_merge.2.1
    [("palette".data, Value.table [("red".data, Value.str "#ff0000".data)])] []
    (Value.table [("red".data, Value.str "#ff0000".data)]) rfl rfl

/-- C7: every top-level key other than `palette` is merged at depth 1: a
child value for a key fully replaces the parent value, parent keys the
child does not mention are kept, and the concrete example yields a
`"ui.text"` style with `fg = blue` and no modifiers. -/
theorem c7_depth_one_merge :
    (∀ (pT cT : List (Str × Value)) (k : Str), (keysOf cT).Nodup →
        k ≠ "palette".data →
        valueGet (mergeFlavors (Value.table pT) (Value.table cT)) k =
          match lookupAssoc cT k with
          | some v => some v
          | none => lookupAssoc pT k) ∧
    valueGet (mergeFlavors c7parent c7child) "ui.text".data =
      some (Value.table [("fg".data, Value.str "blue".data)]) ∧
    (themeFromValue (mergeFlavors c7parent c7child)).map
        (fun t => t.get "ui.text".data) =
      some (Style.default.withFg Color.blue) ∧
    (themeFromValue (mergeFlavors c7parent c7child)).map
        (fun t => (t.get "ui.text".data).modifiers) = some [] :=
  ⟨mergeFlavors_other_lookup, rfl, by decide, by decide⟩

/-- Witness for C7: the depth-1 override at the concrete example's key. -/
theorem c7_depth_one_merge_witness :
    valueGet
        (mergeFlavors c7parent
          (Value.table
            [("ui.text".data, Value.table [("fg".data, Value.str "blue".data)])]))
        "ui.text".data =
      some (Value.table [("fg".data, Value.str "blue".data)]) := by
  have h := c7_depth_one_merge.1
    [("ui.text".data,
      Value.table
        [("fg".data, Value.str "red".data),
         ("modifiers".data, Value.array [Value.str "bold".data])])]
    [("ui.text".data, Value.table [("fg".data, Value.str "blue".data)])]
    "ui.text".data (by decide) (by decide)
  exact h

/-- C8: per-entry parse failures are locally recovered: when the palette
stage succeeds and no entry panics, the build succeeds, and every scope
entry of the document (other than the reserved `palette` and `inherits`
keys) appears in the built theme with the style parsed from its own
value alone — a failing entry neither aborts the build nor alters the
other entries. -/
theorem c8_local_recovery (values : List (Str × Value)) (p : ThemePalette)
    (hnd : (keysOf values).Nodup)
    (hpal : themePaletteOf values = some p)
    (htot : ∀ kv ∈ values, kv.1 ≠ "palette".data → kv.1 ≠ "inherits".data →
      parseStyle p Style.default kv.2 ≠ none) :
    (buildThemeValues values).isSome = true ∧
      ∀ (S : List (Str × Style)) (SC : List Str) (HL : List Style),
        buildThemeValues values = some (S, SC, HL) →
        ∀ (name : Str) (v : Value) (st : Style) (e : Option Str),
          (name, v) ∈ values → name ≠ "palette".data → name ≠ "inherits".data →
          parseStyle p Style.default v = some (st, e) →
          lookupAssoc S name = some st ∧ name ∈ SC := by
  have hnd1 : (keysOf (removeKey values "palette".data).2).Nodup :=
    List.Nodup.sublist (keysOf_removeKey_sublist _ _) hnd
  have hnd2 :
      (keysOf (removeKey (removeKey values "palette".data).2 "inherits".data).2).Nodup :=
    List.Nodup.sublist (keysOf_removeKey_sublist _ _) hnd1
  have hmem2 : ∀ kv ∈ (removeKey (removeKey values "palette".data).2 "inherits".data).2,
      kv ∈ values ∧ kv.1 ≠ "palette".data ∧ kv.1 ≠ "inherits".data := by
    intro kv hkv
    have hkv1 : kv ∈ (removeKey values "palette".data).2 :=
      mem_of_mem_removeKey _ _ _ hkv
    exact ⟨mem_of_mem_removeKey _ _ _ hkv1,
      key_ne_of_mem_removeKey _ _ hnd kv hkv1,
      key_ne_of_mem_removeKey _ _ hnd1 kv hkv⟩
  constructor
  · unfold buildThemeValues
    rw [hpal]
    exact buildLoop_isSome p _ [] [] []
      (fun kv hkv =>
        htot kv (hmem2 kv hkv).1 (hmem2 kv hkv).2.1 (hmem2 kv hkv).2.2)
  · intro S SC HL hbuild name v st e hmem hne1 hne2 hparse
    unfold buildThemeValues at hbuild
    rw [hpal] at hbuild
    have hmeml2 :
        (name, v) ∈ (removeKey (removeKey values "palette".data).2 "inherits".data).2 :=
      mem_removeKey_of_ne _ _ _ (mem_removeKey_of_ne _ _ _ hmem hne1) hne2
    exact buildLoop_entry p _ [] [] [] S SC HL name v st e hbuild hnd2 hmeml2 hparse

/-- Witness for C8: the document with a malformed `"ui.bad"` entry still
builds, keeping the well-formed `"ui.good"` entry fully parsed and the
malformed entry with its partial (default) style. -/
theorem c8_local_recovery_witness :
    (buildThemeValues c8doc).isSome = true ∧
      lookupAssoc c8styles "ui.good".data = some (Style.default.withFg Color.red) ∧
      "ui.bad".data ∈ c8scopes := by
  have h := c8_local_recovery c8doc ThemePalette.default (by decide) rfl (by decide)
  refine ⟨h.1, ?_, ?_⟩
  · exact (h.2 c8styles c8scopes c8highlights rfl "ui.good".data
      (Value.str "red".data) (Style.default.withFg Color.red) none
      (by unfold c8doc; exact List.mem_cons_of_mem _ (List.mem_cons_self _ _))
      (by decide) (by decide) rfl).1
  · exact (h.2 c8styles c8scopes c8highlights rfl "ui.bad".data
      (Value.table [("fg".data, Value.str "not_a_color".data)]) Style.default
      (some (malformedHexMsg "not_a_color".data))
      (by unfold c8doc; exact List.mem_cons_self _ _) (by decide)
      (by decide) rfl).2

/-- C9: `is_16_color` is true exactly when no style in the styles mapping
has an RGB foreground or background; it is true for a theme built from
named built-in colors only and false as soon as a single entry sets an
RGB foreground or background. -/
theorem c9_is_16_color :
    (∀ t : Theme, t.is16Color = true ↔
      ∀ kv ∈ t.styles,
        (∀ r g b : Nat, kv.2.fg ≠ some (Color.rgb r g b)) ∧
        (∀ r g b : Nat, kv.2.bg ≠ some (Color.rgb r g b))) ∧
    (themeFromValue c9namedDoc).map Theme.is16Color = some true ∧
    (themeFromValue c9rgbDoc).map Theme.is16Color = some false :=
  ⟨is16Color_iff, by decide, by decide⟩

/-- C10 (code bug): `hex_string_to_rgb` is not total.  The 8-byte token
`"#aé1111"` starts with `#` and passes the length guard, but byte index 3
falls inside the two-byte character `é`, so the slice `&s[1..3]` panics —
modelled here as the `none` result — instead of returning `Ok` or
`Err`. -/
theorem c10_hex_panic :
    "#aé1111".data.head? = some '#' ∧
    utf8Len "#aé1111".data = 8 ∧
    byteSlice "#aé1111".data 1 3 = none ∧
    hexStringToRgb "#aé1111".data = none :=
  ⟨rfl, by decide, rfl, rfl⟩

end Helix
